import Mathlib

/-!
Verification of the core algorithms of the android-performance-testing-tool
repository: the batch planner (`perftest/commands/test.py`,
`perftest/commands/pipeline.py`), the trace metric extraction pipeline and
metrics cache (`perftest/analysis/trace_processor.py`), and the parallel
run monitor with retry (`perftest/commands/devicefarm.py`).

Each definition is a shallow embedding of the corresponding Python function;
machine integers are modelled as `Nat`/`Int`, nanosecond-to-millisecond
division as exact rational arithmetic, fallible calls as `Option`, and the
remote device-farm service as an explicit environment of per-cycle responses.
-/

namespace PerfTest

/-! ## Batch planner

`num_batches = math.ceil(num_iterations / batch_size)`;
`batches[i] = min(batch_size, num_iterations - i * batch_size)`
(`test.py` lines 99-103, `pipeline.py` lines 265-269).  For `i < num_batches`
the Python subtraction `num_iterations - i * batch_size` is positive, so
truncated `Nat` subtraction agrees with it. -/

def numBatches (T B : Nat) : Nat := (T + B - 1) / B

def planBatches (T B : Nat) : List Nat :=
  (List.range (numBatches T B)).map (fun i => min B (T - i * B))

/-! ## Trace metric extraction (`analysis/trace_processor.py`)

`STARTUP_METRICS_QUERY` keeps, for each of the three marker names, the slice
with the smallest timestamp (`ROW_NUMBER ... ORDER BY ts` with `rn = 1`),
and returns a row only when all three timestamps are non-NULL; the two
latencies are the timestamp differences divided by 1,000,000. -/

structure Slice where
  name : String
  ts : Int
deriving DecidableEq, Repr

def pageLoadMarker : String := "android_platform_page_load_complete"

def bindAppMarker : String := "bindApplication"

def renderBeginMarker : String := "android_apps_tab_screen_render_begin"

/-- First (smallest-`ts`) occurrence of a named marker in the trace;
models the `markers`/`timestamps` CTEs of `STARTUP_METRICS_QUERY`
(`ROW_NUMBER() OVER (PARTITION BY name ORDER BY ts)` with `rn = 1`). -/
def firstTs (trace : List Slice) (marker : String) : Option Int :=
  trace.foldl
    (fun acc s =>
      if s.name = marker then
        match acc with
        | none => some s.ts
        | some t => if s.ts < t then some s.ts else some t
      else acc)
    none

/-- The result row of `STARTUP_METRICS_QUERY` on a trace: produced iff all
three marker timestamps exist; values are
`(page_load_ts - bind_app_ts) / 1000000.0` and
`(render_ts - bind_app_ts) / 1000000.0`. -/
def startup_metrics_query (trace : List Slice) : Option (ℚ × ℚ) :=
  match firstTs trace pageLoadMarker, firstTs trace bindAppMarker,
      firstTs trace renderBeginMarker with
  | some p, some b, some r =>
      some (Rat.divInt (p - b) 1000000, Rat.divInt (r - b) 1000000)
  | _, _, _ => none

/-- A trace file on disk: its basename, whether opening/querying it raises
(the `except Exception` path of `extract_startup_metrics_from_trace`), and
its slice content. -/
structure TraceFile where
  filename : String
  queryFails : Bool
  content : List Slice
deriving DecidableEq, Repr

/-- `extract_startup_metrics_from_trace`: runs the query, returns `None` on
any exception; the `pd.notna` check is subsumed because a returned row never
has NULL latencies. -/
def extract_startup_metrics_from_trace (f : TraceFile) : Option (ℚ × ℚ) :=
  if f.queryFails then none else startup_metrics_query f.content

/-- One extracted measurement (`TraceMetrics` dataclass). -/
structure TraceMetrics where
  trace_file : String
  iteration : Nat
  startup_latency_ms : ℚ
  render_latency_ms : ℚ
  batch : Nat
  run_arn : String
deriving DecidableEq, Repr

/-- Value of a maximal digit run, as `int(...)` does. -/
def digitsToNat (ds : List Char) : Nat :=
  ds.foldl (fun a c => a * 10 + (c.toNat - 48)) 0

/-- `re.search(r'iter(\d+)', name)`: the first position where the literal
`iter` is followed by at least one digit; the capture is the maximal digit
run there. -/
def searchIter : List Char → Option Nat
  | 'i' :: 't' :: 'e' :: 'r' :: d :: tail =>
      if d.isDigit then some (digitsToNat ((d :: tail).takeWhile (fun c => c.isDigit)))
      else searchIter ('t' :: 'e' :: 'r' :: d :: tail)
  | _ :: rest => searchIter rest
  | [] => none

/-- `process_single_trace((trace_path, batch_id, run_arn))`. -/
def process_single_trace (f : TraceFile) (batch_id : Nat) (run_arn : String) :
    Option TraceMetrics :=
  match searchIter f.filename.data with
  | none => none
  | some iter_num =>
      match extract_startup_metrics_from_trace f with
      | none => none
      | some (startup_ms, render_ms) =>
          some ⟨f.filename, iter_num, startup_ms, render_ms, batch_id, run_arn⟩

/-- One element of `trace_tasks`: a discovered trace file together with its
batch id and the run folder name. -/
structure TraceTask where
  file : TraceFile
  batch_id : Nat
  run_arn : String
deriving DecidableEq, Repr

def procTask (t : TraceTask) : Option TraceMetrics :=
  process_single_trace t.file t.batch_id t.run_arn

/-- The worker-pool loop of `load_traces_with_batches_parallel`: each task
contributes either one record or one unit of `failed_count`; a task's
failure never affects the others.  (The parallel completion order is
modelled by the fixed task order.) -/
def runTraceTasks (tasks : List TraceTask) : List TraceMetrics × Nat :=
  tasks.foldl
    (fun acc t =>
      match procTask t with
      | some m => (acc.1 ++ [m], acc.2)
      | none => (acc.1, acc.2 + 1))
    ([], 0)

/-- State of `.metrics_cache.json` for one directory. -/
inductive CacheFile where
  | absent
  | corrupt
  | valid (records : List TraceMetrics)
deriving DecidableEq, Repr

inductive LoadOutcome where
  | ok (records : List TraceMetrics)
  | error (msg : String)
deriving DecidableEq, Repr

structure LoadResult where
  result : LoadOutcome
  cache : CacheFile
  extraction_ran : Bool
  failed_count : Nat
deriving DecidableEq, Repr

/-- `load_traces_with_batches_parallel(base_dir, max_workers, use_cache)` at
the level of its discovered task list and the directory's cache file: a
readable cache snapshot with `use_cache` is returned verbatim; a corrupt one
falls through to extraction; `ValueError` is raised when no tasks were
discovered or no task produced a record; on success the record list is
persisted (overwriting) when `use_cache` is set. -/
def load_traces_with_batches_parallel (tasks : List TraceTask)
    (cache : CacheFile) (use_cache : Bool) : LoadResult :=
  match use_cache, cache with
  | true, CacheFile.valid rs => ⟨.ok rs, .valid rs, false, 0⟩
  | _, _ =>
      if tasks.isEmpty then ⟨.error "No trace files found", cache, false, 0⟩
      else
        let res := runTraceTasks tasks
        if res.1.isEmpty then
          ⟨.error "No valid trace data loaded", cache, true, res.2⟩
        else
          ⟨.ok res.1, if use_cache then .valid res.1 else cache, true, res.2⟩

/-- Fixture: a healthy trace file — first `bindApplication` at 0 ns, first
render-begin at 2,000,000 ns, first page-load at 5,000,000 ns, a later second
`bindApplication`, and an unrelated slice. -/
def goodTraceFile : TraceFile :=
  ⟨"cold_startup_iter1.perfetto-trace", false,
    [⟨bindAppMarker, 0⟩, ⟨renderBeginMarker, 2000000⟩,
     ⟨pageLoadMarker, 5000000⟩, ⟨bindAppMarker, 7000000⟩, ⟨"other_slice", 1⟩]⟩

/-- Fixture: a discovered file whose name has no embedded iteration number. -/
def badTraceFile : TraceFile := ⟨"notes.perfetto-trace", false, []⟩

def goodTask : TraceTask := ⟨goodTraceFile, 0, "arn_run_1"⟩

def badTask : TraceTask := ⟨badTraceFile, 0, "arn_run_1"⟩

/-! ## Run monitor (`commands/devicefarm.py`, `monitor_runs_parallel_with_retry`)

The registry `runs` is a Python dict keyed by run ARN; ARNs are modelled by
`Nat` identifiers drawn from the counter `next_id`, so retry runs always get
a fresh key appended at the end (insertion order, like the dict).  The remote
service and `download_artifacts` are an environment giving, per cycle, the
poll reply of each run and whether a retry `schedule_test_run` call succeeds.
`sched_count` is a ghost counter of successful retry scheduling calls. -/

structure RunInfo where
  batch_idx : Nat
  attempt : Nat
  status : String
  last_status : Option String
  completed : Bool
deriving DecidableEq, Repr

structure MonitorState where
  runs : List (Nat × RunInfo)
  all_traces : List String
  next_id : Nat
  sched_count : Nat
deriving DecidableEq, Repr

/-- What one `client.get_run` call (plus, if terminal, the
`download_artifacts` call) yields for one run in one cycle:
`ok status downloaded` or a caught exception. -/
inductive PollReply where
  | ok (status : String) (downloaded : List String)
  | error

/-- The environment of one polling cycle: whether a `KeyboardInterrupt` is
observed, each run's poll reply, and whether a retry scheduling call for a
given batch index succeeds. -/
structure CycleEnv where
  interrupt : Bool
  poll : Nat → PollReply
  schedOk : Nat → Bool

/-- `status in ['COMPLETED', 'STOPPED']`. -/
def isTerminal (s : String) : Bool := s == "COMPLETED" || s == "STOPPED"

/-- In-place mutation of `runs[run_arn]`. -/
def updateRun (st : MonitorState) (rid : Nat) (i : RunInfo) : MonitorState :=
  { st with runs := st.runs.map (fun e => if e.1 = rid then (e.1, i) else e) }

/-- `run_info['status'] = status` and the `last_status` update. -/
def polledInfo (info : RunInfo) (s : String) : RunInfo :=
  { info with status := s, last_status := some s }

/-- The successful-download update: statuses set, `completed = True`. -/
def completeInfo (info : RunInfo) (s : String) : RunInfo :=
  { info with status := s, last_status := some s, completed := true }

/-- The fresh registry entry of a retry run: same batch, `attempt + 1`. -/
def retryInfo (info : RunInfo) : RunInfo :=
  ⟨info.batch_idx, info.attempt + 1, "PENDING", none, false⟩

/-- `del runs[run_arn]; runs[retry_run_arn] = {...}` with a fresh id. -/
def scheduleRetry (st : MonitorState) (rid : Nat) (newInfo : RunInfo) :
    MonitorState :=
  { st with
    runs := st.runs.filter (fun e => !(e.1 == rid)) ++ [(st.next_id, newInfo)],
    next_id := st.next_id + 1,
    sched_count := st.sched_count + 1 }

/-- The body of the per-run poll (`for run_arn in list(runs.keys())` body):
returns the updated state, or an early `(False, all_traces)` return when a
batch exhausts its retries with no traces or a retry scheduling call fails. -/
def pollOne (maxRetries : Nat) (env : CycleEnv) (st : MonitorState)
    (rid : Nat) : MonitorState ⊕ (Bool × MonitorState) :=
  match List.lookup rid st.runs with
  | none => .inl st
  | some info =>
    if info.completed then .inl st
    else
      match env.poll rid with
      | .error => .inl st
      | .ok s downloaded =>
        if isTerminal s then
          if downloaded.isEmpty then
            if info.attempt < maxRetries + 1 then
              if env.schedOk info.batch_idx then
                .inl (scheduleRetry (updateRun st rid (polledInfo info s)) rid
                  (retryInfo info))
              else .inr (false, updateRun st rid (polledInfo info s))
            else .inr (false, updateRun st rid (polledInfo info s))
          else
            .inl { updateRun st rid (completeInfo info s) with
                   all_traces := st.all_traces ++ downloaded }
        else .inl (updateRun st rid (polledInfo info s))

/-- One cycle's iteration over a snapshot of the registry keys. -/
def cycleGo (maxRetries : Nat) (env : CycleEnv) :
    MonitorState → List Nat → MonitorState ⊕ (Bool × MonitorState)
  | st, [] => .inl st
  | st, rid :: rest =>
    match pollOne maxRetries env st rid with
    | .inl st' => cycleGo maxRetries env st' rest
    | .inr r => .inr r

/-- One full polling cycle: the key snapshot `list(runs.keys())` is taken
once, at the start. -/
def runCycle (maxRetries : Nat) (env : CycleEnv) (st : MonitorState) :
    MonitorState ⊕ (Bool × MonitorState) :=
  cycleGo maxRetries env st (st.runs.map (fun e => e.1))

/-- Result of the monitor: the returned `(success, all_traces)` pair is
`ret success final` with `final.all_traces` the trace list; `fuelOut` marks
an unfinished loop (the source loop has no iteration bound). -/
inductive MonitorResult where
  | ret (success : Bool) (final : MonitorState)
  | fuelOut (st : MonitorState)
deriving DecidableEq, Repr

/-- The `while True` loop of `monitor_runs_parallel_with_retry`, driven by
one `CycleEnv` per cycle.  A `KeyboardInterrupt` is observed at the top of
the cycle and returns `(False, all_traces)`; the all-completed check returns
`(True, all_traces)`. -/
def monitor_runs_parallel_with_retry (maxRetries : Nat) :
    MonitorState → List CycleEnv → MonitorResult
  | st, [] => .fuelOut st
  | st, env :: rest =>
    if env.interrupt then .ret false st
    else if st.runs.all (fun e => e.2.completed) then .ret true st
    else
      match runCycle maxRetries env st with
      | .inl st' => monitor_runs_parallel_with_retry maxRetries st' rest
      | .inr (b, st') => .ret b st'

/-- Initial registry built from `initial_run_arns` (ids `0..n-1`, batch
index = position, attempt 1, status `PENDING`). -/
def initRunInfo (idx : Nat) : RunInfo := ⟨idx, 1, "PENDING", none, false⟩

def initMonitorState (n : Nat) : MonitorState :=
  ⟨(List.range n).map (fun i => (i, initRunInfo i)), [], n, 0⟩

/-- Environment of a cycle in which every run reports terminal with zero
traces and every scheduling call succeeds. -/
def allFailEnv : CycleEnv :=
  ⟨false, fun _ => .ok "COMPLETED" [], fun _ => true⟩

/-- Environment of a cycle in which every run reports terminal with one
downloaded trace. -/
def succEnv : CycleEnv :=
  ⟨false, fun _ => .ok "COMPLETED" ["batch0_iter1.perfetto-trace"],
    fun _ => true⟩

/-- Environment of a cycle at whose top a `KeyboardInterrupt` is observed. -/
def interruptEnv : CycleEnv := ⟨true, fun _ => .ok "PENDING" [], fun _ => true⟩

/-- The state returned when the single batch of `initMonitorState 1` is
abandoned after `R` retries. -/
def abandonState (R : Nat) : MonitorState :=
  ⟨[(R, ⟨0, R + 1, "COMPLETED", some "COMPLETED", false⟩)], [], R + 1, R⟩

/-- The state of the single-batch all-fail run after `k` retries. -/
def failState (k : Nat) : MonitorState :=
  ⟨[(k, ⟨0, k + 1, "PENDING", none, false⟩)], [], k + 1, k⟩

/-- Attempt counters of all registry entries lie in `[1, R+1]`. -/
def AttemptsOK (R : Nat) (st : MonitorState) : Prop :=
  ∀ e ∈ st.runs, 1 ≤ e.2.attempt ∧ e.2.attempt ≤ R + 1

/-- Registry well-formedness: keys strictly increasing (hence unique, in
insertion order) and all below the fresh-id counter. -/
def WFRegistry (st : MonitorState) : Prop :=
  (st.runs.map (fun e => e.1)).Pairwise (· < ·) ∧
    ∀ e ∈ st.runs, e.1 < st.next_id

/-- The multiset of batch indices tracked by the registry. -/
def batchIdxs (st : MonitorState) : List Nat :=
  st.runs.map (fun e => e.2.batch_idx)

/-- Observable return value of the monitor: the `(success, traces)` pair the
caller receives, `none` when the loop has not returned. -/
def monitorObs : MonitorResult → Option (Bool × List String)
  | .ret b st => some (b, st.all_traces)
  | .fuelOut _ => none

/-- The registry state carried by either outcome of a per-run poll (the
continued state, or the state at an early failure return). -/
def outState : MonitorState ⊕ (Bool × MonitorState) → MonitorState
  | .inl s => s
  | .inr (_, s) => s

/-! ## Batch-planner lemmas -/

theorem numBatches_eq_succ {T B : Nat} (hB : 0 < B) (hT : 0 < T) :
    numBatches T B = (T - 1) / B + 1 := by
  unfold numBatches
  have h : T + B - 1 = (T - 1) + B := by omega
  rw [h, Nat.add_div_right _ hB]

theorem planBatches_of_le {T B : Nat} (hT : 0 < T) (hTB : T ≤ B) :
    planBatches T B = [T] := by
  have hB : 0 < B := lt_of_lt_of_le hT hTB
  have h1 : numBatches T B = 1 := by
    rw [numBatches_eq_succ hB hT, Nat.div_eq_of_lt (by omega)]
  simp [planBatches, h1, List.range_succ, Nat.min_eq_right hTB]

theorem planBatches_cons {T B : Nat} (hB : 0 < B) (hBT : B < T) :
    planBatches T B = B :: planBatches (T - B) B := by
  have hstep : numBatches T B = numBatches (T - B) B + 1 := by
    unfold numBatches
    have h1 : T + B - 1 = (T - B + B - 1) + B := by omega
    rw [h1, Nat.add_div_right _ hB]
  rw [planBatches, hstep, List.range_succ_eq_map]
  simp only [List.map_cons, List.map_map]
  congr 1
  · simp [Nat.min_eq_left (Nat.le_of_lt hBT)]
  · rw [planBatches]
    apply List.map_congr_left
    intro i _
    simp only [Function.comp]
    rw [Nat.succ_mul, Nat.add_comm (i * B) B, ← Nat.sub_sub]

theorem planBatches_sum {B : Nat} (hB : 0 < B) :
    ∀ T, 0 < T → (planBatches T B).sum = T := by
  intro T
  induction T using Nat.strong_induction_on with
  | _ T ih =>
    intro hT
    rcases le_or_lt T B with h | h
    · rw [planBatches_of_le hT h]; simp
    · rw [planBatches_cons hB h, List.sum_cons, ih (T - B) (by omega) (by omega)]
      omega

theorem planBatches_getElem? {T B i : Nat} (hi : i < numBatches T B) :
    (planBatches T B)[i]? = some (min B (T - i * B)) := by
  simp [planBatches, List.getElem?_map, List.getElem?_range, hi]

/-- C1 claim theorem (see `c1_batch_planning`): the planner produces
`ceil(T/B)` sizes, all in `(0, B]`, summing to `T`, with every batch but the
last equal to `B` and the last equal to `T - (count-1)*B`. -/
theorem c1_batch_planning (T B : Nat) (hT : 0 < T) (hB : 0 < B) :
    (planBatches T B).length = numBatches T B ∧
    (∀ s ∈ planBatches T B, 0 < s ∧ s ≤ B) ∧
    (planBatches T B).sum = T ∧
    (∀ i, i + 1 < numBatches T B → (planBatches T B)[i]? = some B) ∧
    (planBatches T B)[numBatches T B - 1]? =
      some (T - (numBatches T B - 1) * B) ∧
    (numBatches T B - 1) * B < T ∧ T ≤ numBatches T B * B := by
  have hq := numBatches_eq_succ hB hT
  have hx : T - 1 = (T - 1) / B * B + (T - 1) % B := by
    rw [Nat.mul_comm]
    exact (Nat.div_add_mod (T - 1) B).symm
  have hml : (T - 1) % B < B := Nat.mod_lt _ hB
  have hqmul : (T - 1) / B * B ≤ T - 1 := Nat.div_mul_le_self _ _
  obtain ⟨q, hQ⟩ : ∃ q, (T - 1) / B = q := ⟨_, rfl⟩
  obtain ⟨r, hR⟩ : ∃ r, (T - 1) % B = r := ⟨_, rfl⟩
  rw [hQ] at hq hqmul
  rw [hQ, hR] at hx
  rw [hR] at hml
  have key : ∀ x rr, T - 1 = x + rr → rr < B → T - x ≤ B ∧ x < T ∧ T ≤ x + B := by
    intro x rr h1 h2
    omega
  have hfacts := key _ _ hx hml
  have key2 : ∀ y z, y + B = z → z ≤ T - 1 → B ≤ T - y := by
    intro y z h1 h2
    omega
  have key3 : ∀ y, y ≤ T - 1 → 0 < T - y := by
    intro y h
    omega
  refine ⟨?_, ?_, planBatches_sum hB T hT, ?_, ?_, ?_, ?_⟩
  · simp [planBatches]
  · intro s hs
    simp only [planBatches, List.mem_map, List.mem_range] at hs
    obtain ⟨i, hi, rfl⟩ := hs
    rw [hq] at hi
    have h1 : i ≤ q := by omega
    have h2 : i * B ≤ q * B := Nat.mul_le_mul_right _ h1
    exact ⟨lt_min hB (key3 _ (le_trans h2 hqmul)), min_le_left _ _⟩
  · intro i hi
    rw [planBatches_getElem? (by omega)]
    rw [hq] at hi
    have h1 : i + 1 ≤ q := by omega
    have h2 : (i + 1) * B ≤ q * B := Nat.mul_le_mul_right _ h1
    rw [Nat.min_eq_left
      (key2 (i * B) ((i + 1) * B) (Nat.succ_mul i B).symm (le_trans h2 hqmul))]
  · rw [@planBatches_getElem? T B (numBatches T B - 1) (by omega), hq]
    simp only [Nat.add_sub_cancel]
    rw [Nat.min_eq_right hfacts.1]
  · rw [hq]
    simp only [Nat.add_sub_cancel]
    exact hfacts.2.1
  · rw [hq, Nat.succ_mul]
    exact hfacts.2.2

/-- Witness for C1 at `T = 125`, `B = 50` (the spec's own example). -/
theorem c1_batch_planning_witness :
    planBatches 125 50 = [50, 50, 25] ∧ (planBatches 125 50).sum = 125 :=
  ⟨by decide, (c1_batch_planning 125 50 (by norm_num) (by norm_num)).2.2.1⟩

/-! ## Trace-extraction lemmas -/

/-- C2, amended: `STARTUP_METRICS_QUERY` produces a row exactly when all
three markers occur in the trace; the order of their timestamps is not
checked, so the absence of any marker yields no record, but an out-of-order
trace still yields one (with a zero or negative latency). -/
theorem c2_record_iff_markers_present (tr : List Slice) :
    (startup_metrics_query tr).isSome =
      ((firstTs tr pageLoadMarker).isSome &&
        (firstTs tr bindAppMarker).isSome &&
        (firstTs tr renderBeginMarker).isSome) := by
  unfold startup_metrics_query
  cases firstTs tr pageLoadMarker <;> cases firstTs tr bindAppMarker <;>
    cases firstTs tr renderBeginMarker <;> simp

/-- C2 counterexample: a trace holding all three markers but with
`bindApplication` *after* the other two still produces a record, and its
startup latency is negative — refuting both the increasing-order requirement
and the no-nonpositive-latency guarantee of the claim. -/
theorem c2_negative_latency_counterexample :
    startup_metrics_query
        [⟨bindAppMarker, 10⟩, ⟨pageLoadMarker, 3⟩, ⟨renderBeginMarker, 5⟩] =
      some (Rat.divInt (-7) 1000000, Rat.divInt (-5) 1000000) ∧
    Rat.divInt (-7) 1000000 < 0 := by
  constructor
  · decide
  · decide

/-- C3: on a trace with first `bindApplication` at 0 ns, first render-begin
at 2,000,000 ns and first page-load at 5,000,000 ns, extraction yields
`startup_latency_ms = 5` and `render_latency_ms = 2`; with the render marker
missing it yields no record. -/
theorem c3_extraction_arithmetic :
    extract_startup_metrics_from_trace goodTraceFile = some (5, 2) ∧
    extract_startup_metrics_from_trace
        ⟨"cold_startup_iter2.perfetto-trace", false,
          [⟨bindAppMarker, 0⟩, ⟨pageLoadMarker, 5000000⟩]⟩ = none := by
  constructor
  · decide
  · decide

theorem runTraceTasks_eq (tasks : List TraceTask) :
    runTraceTasks tasks =
      (tasks.filterMap procTask,
        tasks.countP (fun t => (procTask t).isNone)) := by
  have go : ∀ (ts : List TraceTask) (acc : List TraceMetrics × Nat),
      ts.foldl
          (fun acc t =>
            match procTask t with
            | some m => (acc.1 ++ [m], acc.2)
            | none => (acc.1, acc.2 + 1)) acc =
        (acc.1 ++ ts.filterMap procTask,
          acc.2 + ts.countP (fun t => (procTask t).isNone)) := by
    intro ts
    induction ts with
    | nil => intro acc; simp
    | cons t ts ih =>
      intro acc
      cases hp : procTask t with
      | some m =>
          simp [List.foldl_cons, hp, ih, List.filterMap_cons, List.countP_cons]
      | none =>
          simp [List.foldl_cons, hp, ih, List.filterMap_cons, List.countP_cons]
          omega
  rw [runTraceTasks, go]
  simp

/-- On any path that does not hit a readable snapshot, the load runs the
cold-cache branch of `load_traces_with_batches_parallel`. -/
theorem load_no_hit (tasks : List TraceTask) (cache : CacheFile)
    (use_cache : Bool)
    (h : use_cache = false ∨ cache = CacheFile.absent ∨
      cache = CacheFile.corrupt) :
    load_traces_with_batches_parallel tasks cache use_cache =
      if tasks.isEmpty then ⟨.error "No trace files found", cache, false, 0⟩
      else if (runTraceTasks tasks).1.isEmpty then
        ⟨.error "No valid trace data loaded", cache, true,
          (runTraceTasks tasks).2⟩
      else
        ⟨.ok (runTraceTasks tasks).1,
          if use_cache then CacheFile.valid (runTraceTasks tasks).1 else cache,
          true, (runTraceTasks tasks).2⟩ := by
  cases use_cache with
  | false => cases cache <;> rfl
  | true =>
    rcases h with h | h | h
    · cases h
    · rw [h]; rfl
    · rw [h]; rfl

/-- C5, amended: each discovered file contributes independently — a file
with a malformed name, failing query or missing markers adds nothing to the
record list and one unit to the failure count, and never disturbs the other
files; when at least one file yields a record the directory load returns
`ok` (failures surface only in the aggregate count), but when *every*
discovered file fails, `load_traces_with_batches_parallel` raises
`ValueError` to the caller. -/
theorem c5_per_file_failures_local (tasks : List TraceTask) (cache : CacheFile)
    (use_cache : Bool) :
    runTraceTasks tasks =
      (tasks.filterMap procTask,
        tasks.countP (fun t => (procTask t).isNone)) ∧
    ((∃ t ∈ tasks, (procTask t).isSome = true) →
      ∃ rs, (load_traces_with_batches_parallel tasks cache use_cache).result =
        .ok rs) := by
  refine ⟨runTraceTasks_eq tasks, ?_⟩
  rintro ⟨t, ht, hsome⟩
  have hne : tasks.isEmpty = false := by
    cases tasks with
    | nil => cases ht
    | cons a l => rfl
  have hm : (runTraceTasks tasks).1.isEmpty = false := by
    rw [runTraceTasks_eq]
    obtain ⟨m, hmm⟩ := Option.isSome_iff_exists.mp hsome
    have hmem : m ∈ tasks.filterMap procTask :=
      List.mem_filterMap.mpr ⟨t, ht, hmm⟩
    cases hfm : tasks.filterMap procTask with
    | nil => rw [hfm] at hmem; cases hmem
    | cons a l => rfl
  by_cases hv : use_cache = true ∧ ∃ rs0, cache = CacheFile.valid rs0
  · obtain ⟨hu, rs0, hc⟩ := hv
    rw [hu, hc]
    exact ⟨rs0, rfl⟩
  · have hcold : use_cache = false ∨ cache = CacheFile.absent ∨
        cache = CacheFile.corrupt := by
      cases use_cache with
      | false => exact Or.inl rfl
      | true =>
        cases cache with
        | absent => exact Or.inr (Or.inl rfl)
        | corrupt => exact Or.inr (Or.inr rfl)
        | valid rs0 => exact absurd ⟨rfl, rs0, rfl⟩ hv
    refine ⟨(runTraceTasks tasks).1, ?_⟩
    rw [load_no_hit tasks cache use_cache hcold]
    simp [hne, hm]

/-- Witness for C5 on a directory with one good and one malformed file. -/
theorem c5_per_file_failures_local_witness :
    ∃ rs,
      (load_traces_with_batches_parallel [goodTask, badTask]
          CacheFile.absent true).result = .ok rs :=
  (c5_per_file_failures_local [goodTask, badTask] CacheFile.absent true).2
    ⟨goodTask, by decide, by decide⟩

/-- C5 counterexample: a directory containing one discovered trace file
whose name carries no iteration number makes
`load_traces_with_batches_parallel` raise `ValueError` — the failure does
propagate to the caller when no file at all succeeds. -/
theorem c5_error_counterexample :
    (load_traces_with_batches_parallel [badTask] CacheFile.absent true).result =
      .error "No valid trace data loaded" := by
  decide

theorem load_cache_hit (tasks : List TraceTask) (rs : List TraceMetrics) :
    load_traces_with_batches_parallel tasks (CacheFile.valid rs) true =
      ⟨.ok rs, .valid rs, false, 0⟩ := rfl

theorem load_cache_of_ok {tasks : List TraceTask} {cache : CacheFile}
    {rs : List TraceMetrics}
    (h : (load_traces_with_batches_parallel tasks cache true).result = .ok rs) :
    (load_traces_with_batches_parallel tasks cache true).cache =
      CacheFile.valid rs := by
  cases cache with
  | valid rs0 =>
      rw [load_cache_hit] at h ⊢
      simp only [LoadOutcome.ok.injEq] at h
      rw [h]
  | absent =>
      rw [load_no_hit tasks _ true (Or.inr (Or.inl rfl))] at h ⊢
      by_cases he : tasks.isEmpty = true
      · rw [if_pos he] at h
        exact absurd h (by simp)
      · rw [if_neg he] at h ⊢
        by_cases hm : (runTraceTasks tasks).1.isEmpty = true
        · rw [if_pos hm] at h
          exact absurd h (by simp)
        · rw [if_neg hm] at h ⊢
          simp at h ⊢
          exact h
  | corrupt =>
      rw [load_no_hit tasks _ true (Or.inr (Or.inr rfl))] at h ⊢
      by_cases he : tasks.isEmpty = true
      · rw [if_pos he] at h
        exact absurd h (by simp)
      · rw [if_neg he] at h ⊢
        by_cases hm : (runTraceTasks tasks).1.isEmpty = true
        · rw [if_pos hm] at h
          exact absurd h (by simp)
        · rw [if_neg hm] at h ⊢
          simp at h ⊢
          exact h

/-- C7: once a cache-enabled load of a directory has succeeded, its snapshot
equals the returned records, and a second cache-enabled load of the
unchanged directory returns exactly the same records in the same order,
without running extraction (and with a zero failure count). -/
theorem c7_cache_idempotent (tasks : List TraceTask) (cache : CacheFile)
    (rs : List TraceMetrics)
    (h : (load_traces_with_batches_parallel tasks cache true).result = .ok rs) :
    (load_traces_with_batches_parallel tasks cache true).cache =
      CacheFile.valid rs ∧
    load_traces_with_batches_parallel tasks
        ((load_traces_with_batches_parallel tasks cache true).cache) true =
      ⟨.ok rs, CacheFile.valid rs, false, 0⟩ := by
  have hc := load_cache_of_ok h
  exact ⟨hc, by rw [hc]; exact load_cache_hit tasks rs⟩

/-- Witness for C7 on a one-file directory whose extraction succeeds. -/
theorem c7_cache_idempotent_witness :
    (load_traces_with_batches_parallel [goodTask] CacheFile.absent true).cache =
      CacheFile.valid
        [⟨"cold_startup_iter1.perfetto-trace", 1, 5, 2, 0, "arn_run_1"⟩] ∧
    load_traces_with_batches_parallel [goodTask]
        ((load_traces_with_batches_parallel [goodTask] CacheFile.absent
            true).cache) true =
      ⟨.ok [⟨"cold_startup_iter1.perfetto-trace", 1, 5, 2, 0, "arn_run_1"⟩],
        CacheFile.valid
          [⟨"cold_startup_iter1.perfetto-trace", 1, 5, 2, 0, "arn_run_1"⟩],
        false, 0⟩ :=
  c7_cache_idempotent [goodTask] CacheFile.absent
    [⟨"cold_startup_iter1.perfetto-trace", 1, 5, 2, 0, "arn_run_1"⟩]
    (by decide)

/-- C8: a corrupt cache snapshot behaves exactly like a cold cache — the
load runs full extraction and returns the same outcome, the same
extraction-ran flag and the same failure count as on an absent cache, so the
corruption is never fatal by itself. -/
theorem c8_corrupt_cache_as_cold (tasks : List TraceTask) :
    (load_traces_with_batches_parallel tasks CacheFile.corrupt true).result =
      (load_traces_with_batches_parallel tasks CacheFile.absent true).result ∧
    (load_traces_with_batches_parallel tasks CacheFile.corrupt
        true).extraction_ran =
      (load_traces_with_batches_parallel tasks CacheFile.absent
          true).extraction_ran ∧
    (load_traces_with_batches_parallel tasks CacheFile.corrupt
        true).failed_count =
      (load_traces_with_batches_parallel tasks CacheFile.absent
          true).failed_count := by
  rw [load_no_hit tasks _ true (Or.inr (Or.inr rfl)),
    load_no_hit tasks _ true (Or.inr (Or.inl rfl))]
  split_ifs <;> exact ⟨rfl, rfl, rfl⟩

/-! ## Run-monitor lemmas -/

theorem monitor_cons (R : Nat) (st : MonitorState) (env : CycleEnv)
    (rest : List CycleEnv) :
    monitor_runs_parallel_with_retry R st (env :: rest) =
      if env.interrupt then .ret false st
      else if st.runs.all (fun e => e.2.completed) then .ret true st
      else
        match runCycle R env st with
        | .inl st' => monitor_runs_parallel_with_retry R st' rest
        | .inr (b, st') => .ret b st' := rfl

theorem lookup_mem {l : List (Nat × RunInfo)} {rid : Nat} {i : RunInfo}
    (h : List.lookup rid l = some i) : (rid, i) ∈ l := by
  induction l with
  | nil => cases h
  | cons e t ih =>
    obtain ⟨k, b⟩ := e
    cases hk : (rid == k) with
    | true =>
      simp only [List.lookup, hk] at h
      cases h
      have hrk : rid = k := eq_of_beq hk
      subst hrk
      exact List.mem_cons_self _ _
    | false =>
      simp only [List.lookup, hk] at h
      exact List.mem_cons_of_mem _ (ih h)

/-- Every outcome of `pollOne` is one of: untouched state, a pure status
update, a completed download, or a scheduled retry — always acting on a
looked-up, not-yet-completed registry entry. -/
theorem pollOne_shape (R : Nat) (env : CycleEnv) (st : MonitorState)
    (rid : Nat) :
    outState (pollOne R env st rid) = st ∨
    ∃ info s, List.lookup rid st.runs = some info ∧ info.completed = false ∧
      (outState (pollOne R env st rid) =
          updateRun st rid (polledInfo info s) ∨
        (∃ dl, outState (pollOne R env st rid) =
          { updateRun st rid (completeInfo info s) with
            all_traces := st.all_traces ++ dl }) ∨
        (info.attempt < R + 1 ∧
          outState (pollOne R env st rid) =
            scheduleRetry (updateRun st rid (polledInfo info s)) rid
              (retryInfo info))) := by
  unfold pollOne
  cases hl : List.lookup rid st.runs with
  | none =>
    left
    simp only [hl]
    rfl
  | some info =>
    simp only [hl]
    cases hc : info.completed with
    | true =>
      left
      rw [if_pos rfl]
      rfl
    | false =>
      rw [if_neg (by simp [hc])]
      cases hp : env.poll rid with
      | error =>
        left
        simp only [hp]
        rfl
      | ok s downloaded =>
        simp only [hp]
        right
        refine ⟨info, s, rfl, hc, ?_⟩
        by_cases ht : isTerminal s = true
        · rw [if_pos ht]
          by_cases hd : downloaded.isEmpty = true
          · rw [if_pos hd]
            by_cases ha : info.attempt < R + 1
            · rw [if_pos ha]
              by_cases hs : env.schedOk info.batch_idx = true
              · rw [if_pos hs]
                right; right
                exact ⟨ha, rfl⟩
              · rw [if_neg hs]
                left; rfl
            · rw [if_neg ha]
              left; rfl
          · rw [if_neg hd]
            right; left
            exact ⟨downloaded, rfl⟩
        · rw [if_neg ht]
          left; rfl

/-- An early `(False, all_traces)` return of `pollOne` always carries the
current state, with the polled entry (still not completed) merely
status-updated. -/
theorem pollOne_inr {R : Nat} {env : CycleEnv} {st : MonitorState}
    {rid : Nat} {b : Bool} {st' : MonitorState}
    (h : pollOne R env st rid = .inr (b, st')) :
    b = false ∧ ∃ info s, List.lookup rid st.runs = some info ∧
      info.completed = false ∧ st' = updateRun st rid (polledInfo info s) := by
  unfold pollOne at h
  cases hl : List.lookup rid st.runs with
  | none =>
    simp only [hl] at h
    exact Sum.noConfusion h
  | some info =>
    simp only [hl] at h
    cases hc : info.completed with
    | true =>
      rw [if_pos hc] at h
      exact Sum.noConfusion h
    | false =>
      rw [if_neg (by simp [hc])] at h
      cases hp : env.poll rid with
      | error =>
        simp only [hp] at h
        exact Sum.noConfusion h
      | ok s downloaded =>
        simp only [hp] at h
        by_cases ht : isTerminal s = true
        · rw [if_pos ht] at h
          by_cases hd : downloaded.isEmpty = true
          · rw [if_pos hd] at h
            by_cases ha : info.attempt < R + 1
            · rw [if_pos ha] at h
              by_cases hs : env.schedOk info.batch_idx = true
              · rw [if_pos hs] at h
                exact Sum.noConfusion h
              · rw [if_neg hs] at h
                injection h with h12
                injection h12 with hb hst
                exact ⟨hb.symm, info, s, rfl, hc, hst.symm⟩
            · rw [if_neg ha] at h
              injection h with h12
              injection h12 with hb hst
              exact ⟨hb.symm, info, s, rfl, hc, hst.symm⟩
          · rw [if_neg hd] at h
            exact Sum.noConfusion h
        · rw [if_neg ht] at h
          exact Sum.noConfusion h

theorem pollOne_traces (R : Nat) (env : CycleEnv) (st : MonitorState)
    (rid : Nat) :
    st.all_traces <+: (outState (pollOne R env st rid)).all_traces := by
  rcases pollOne_shape R env st rid with hs | ⟨info, s, _, _, hs | ⟨dl, hs⟩ | ⟨_, hs⟩⟩
  · rw [hs]
  · rw [hs]
    exact List.prefix_refl _
  · rw [hs]
    exact List.prefix_append _ dl
  · rw [hs]
    exact List.prefix_refl _

theorem cycleGo_traces (R : Nat) (env : CycleEnv) :
    ∀ (l : List Nat) (st : MonitorState),
      st.all_traces <+: (outState (cycleGo R env st l)).all_traces := by
  intro l
  induction l with
  | nil => intro st; exact List.prefix_refl _
  | cons rid rest ih =>
    intro st
    cases hp : pollOne R env st rid with
    | inl st' =>
      have h1 : st.all_traces <+: st'.all_traces := by
        have h2 := pollOne_traces R env st rid
        rw [hp] at h2
        exact h2
      have heq : cycleGo R env st (rid :: rest) = cycleGo R env st' rest := by
        simp only [cycleGo, hp]
      rw [heq]
      exact h1.trans (ih st')
    | inr r =>
      obtain ⟨b, st'⟩ := r
      have heq : cycleGo R env st (rid :: rest) = .inr (b, st') := by
        simp only [cycleGo, hp]
      rw [heq]
      have h2 := pollOne_traces R env st rid
      rw [hp] at h2
      exact h2

theorem monitor_ret_traces {R : Nat} {b : Bool} {final : MonitorState} :
    ∀ (envs : List CycleEnv) (st : MonitorState),
      monitor_runs_parallel_with_retry R st envs = .ret b final →
      st.all_traces <+: final.all_traces := by
  intro envs
  induction envs with
  | nil => intro st h; exact MonitorResult.noConfusion h
  | cons env rest ih =>
    intro st h
    rw [monitor_cons] at h
    by_cases hi : env.interrupt = true
    · rw [if_pos hi] at h
      injection h with hb hst
      rw [hst]
    · rw [if_neg hi] at h
      by_cases hall : st.runs.all (fun e => e.2.completed) = true
      · rw [if_pos hall] at h
        injection h with hb hst
        rw [hst]
      · rw [if_neg hall] at h
        cases hc : runCycle R env st with
        | inl st' =>
          simp only [hc] at h
          have h1 : st.all_traces <+: st'.all_traces := by
            have h2 := cycleGo_traces R env (st.runs.map (fun e => e.1)) st
            have hc' : cycleGo R env st (st.runs.map (fun e => e.1)) =
                .inl st' := hc
            rw [hc'] at h2
            exact h2
          exact h1.trans (ih st' h)
        | inr r =>
          obtain ⟨b0, st0⟩ := r
          simp only [hc] at h
          injection h with hb hst
          have h2 := cycleGo_traces R env (st.runs.map (fun e => e.1)) st
          have hc' : cycleGo R env st (st.runs.map (fun e => e.1)) =
              .inr (b0, st0) := hc
          rw [hc'] at h2
          rw [← hst]
          exact h2

theorem attemptsOK_updateRun {R : Nat} {st : MonitorState} {rid : Nat}
    {i : RunInfo} (h : AttemptsOK R st)
    (hi : 1 ≤ i.attempt ∧ i.attempt ≤ R + 1) :
    AttemptsOK R (updateRun st rid i) := by
  intro e he
  simp only [updateRun, List.mem_map] at he
  obtain ⟨a, ha, rfl⟩ := he
  by_cases hk : a.1 = rid
  · rw [if_pos hk]
    exact hi
  · rw [if_neg hk]
    exact h a ha

theorem attemptsOK_scheduleRetry {R : Nat} {st : MonitorState} {rid : Nat}
    {ni : RunInfo} (h : AttemptsOK R st)
    (hni : 1 ≤ ni.attempt ∧ ni.attempt ≤ R + 1) :
    AttemptsOK R (scheduleRetry st rid ni) := by
  intro e he
  simp only [scheduleRetry, List.mem_append, List.mem_filter,
    List.mem_singleton] at he
  rcases he with ⟨hm, _⟩ | rfl
  · exact h e hm
  · exact hni

theorem attemptsOK_pollOne (R : Nat) (env : CycleEnv) (st : MonitorState)
    (rid : Nat) (h : AttemptsOK R st) :
    AttemptsOK R (outState (pollOne R env st rid)) := by
  rcases pollOne_shape R env st rid with
    hs | ⟨info, s, hl, hc, hs | ⟨dl, hs⟩ | ⟨ha, hs⟩⟩
  · rw [hs]; exact h
  · rw [hs]
    exact attemptsOK_updateRun h (h _ (lookup_mem hl))
  · rw [hs]
    intro e he
    exact @attemptsOK_updateRun R st rid (completeInfo info s) h
      (h _ (lookup_mem hl)) e he
  · rw [hs]
    refine attemptsOK_scheduleRetry
      (attemptsOK_updateRun h (h _ (lookup_mem hl))) ?_
    exact ⟨Nat.succ_le_succ (Nat.zero_le _), Nat.succ_le_of_lt ha⟩

theorem attemptsOK_cycleGo (R : Nat) (env : CycleEnv) :
    ∀ (l : List Nat) (st : MonitorState), AttemptsOK R st →
      AttemptsOK R (outState (cycleGo R env st l)) := by
  intro l
  induction l with
  | nil => intro st h; exact h
  | cons rid rest ih =>
    intro st h
    cases hp : pollOne R env st rid with
    | inl st' =>
      have h1 : AttemptsOK R st' := by
        have h2 := attemptsOK_pollOne R env st rid h
        rw [hp] at h2
        exact h2
      have heq : cycleGo R env st (rid :: rest) = cycleGo R env st' rest := by
        simp only [cycleGo, hp]
      rw [heq]
      exact ih st' h1
    | inr r =>
      obtain ⟨b, st'⟩ := r
      have heq : cycleGo R env st (rid :: rest) = .inr (b, st') := by
        simp only [cycleGo, hp]
      rw [heq]
      have h2 := attemptsOK_pollOne R env st rid h
      rw [hp] at h2
      exact h2

theorem attemptsOK_monitor (R : Nat) :
    ∀ (envs : List CycleEnv) (st : MonitorState) (b : Bool)
      (final : MonitorState), AttemptsOK R st →
      monitor_runs_parallel_with_retry R st envs = .ret b final →
      AttemptsOK R final := by
  intro envs
  induction envs with
  | nil => intro st b final _ hm; exact MonitorResult.noConfusion hm
  | cons env rest ih =>
    intro st b final h hm
    rw [monitor_cons] at hm
    by_cases hi : env.interrupt = true
    · rw [if_pos hi] at hm
      injection hm with hb hst
      rw [← hst]
      exact h
    · rw [if_neg hi] at hm
      by_cases hall : st.runs.all (fun e => e.2.completed) = true
      · rw [if_pos hall] at hm
        injection hm with hb hst
        rw [← hst]
        exact h
      · rw [if_neg hall] at hm
        cases hc : runCycle R env st with
        | inl st' =>
          simp only [hc] at hm
          have h1 : AttemptsOK R st' := by
            have h2 := attemptsOK_cycleGo R env (st.runs.map (fun e => e.1)) st h
            have hc' : cycleGo R env st (st.runs.map (fun e => e.1)) =
                .inl st' := hc
            rw [hc'] at h2
            exact h2
          exact ih st' b final h1 hm
        | inr r =>
          obtain ⟨b0, st0⟩ := r
          simp only [hc] at hm
          injection hm with hb hst
          have h2 := attemptsOK_cycleGo R env (st.runs.map (fun e => e.1)) st h
          have hc' : cycleGo R env st (st.runs.map (fun e => e.1)) =
              .inr (b0, st0) := hc
          rw [hc'] at h2
          rw [← hst]
          exact h2

/-- An early return from a polling cycle always carries `success = false`
and a state still holding a not-completed entry. -/
theorem cycleGo_inr (R : Nat) (env : CycleEnv) :
    ∀ (l : List Nat) (st : MonitorState) (b : Bool) (st' : MonitorState),
      cycleGo R env st l = .inr (b, st') →
      b = false ∧ ∃ e ∈ st'.runs, e.2.completed = false := by
  intro l
  induction l with
  | nil => intro st b st' h; exact Sum.noConfusion h
  | cons rid rest ih =>
    intro st b st' h
    cases hp : pollOne R env st rid with
    | inl st1 =>
      have heq : cycleGo R env st (rid :: rest) = cycleGo R env st1 rest := by
        simp only [cycleGo, hp]
      rw [heq] at h
      exact ih st1 b st' h
    | inr r =>
      obtain ⟨b0, st0⟩ := r
      have heq : cycleGo R env st (rid :: rest) = .inr (b0, st0) := by
        simp only [cycleGo, hp]
      rw [heq] at h
      injection h with h12
      injection h12 with hb hst
      obtain ⟨hb0, info, s, hl, hc, hst0⟩ := pollOne_inr hp
      subst hb0
      refine ⟨hb.symm, ?_⟩
      rw [← hst, hst0]
      refine ⟨(rid, polledInfo info s), ?_, hc⟩
      simp only [updateRun, List.mem_map]
      exact ⟨(rid, info), lookup_mem hl, by rw [if_pos rfl]⟩

/-- A `(True, …)` return of the monitor loop happens only at the
all-completed check. -/
theorem monitor_ret_true (R : Nat) :
    ∀ (envs : List CycleEnv) (st : MonitorState) (final : MonitorState),
      monitor_runs_parallel_with_retry R st envs = .ret true final →
      final.runs.all (fun e => e.2.completed) = true := by
  intro envs
  induction envs with
  | nil => intro st final h; exact MonitorResult.noConfusion h
  | cons env rest ih =>
    intro st final h
    rw [monitor_cons] at h
    by_cases hi : env.interrupt = true
    · rw [if_pos hi] at h
      injection h with hb hst
      exact absurd hb.symm (by simp)
    · rw [if_neg hi] at h
      by_cases hall : st.runs.all (fun e => e.2.completed) = true
      · rw [if_pos hall] at h
        injection h with hb hst
        rw [← hst]
        exact hall
      · rw [if_neg hall] at h
        cases hc : runCycle R env st with
        | inl st' =>
          simp only [hc] at h
          exact ih st' final h
        | inr r =>
          obtain ⟨b0, st0⟩ := r
          simp only [hc] at h
          injection h with hb hst
          have hc' : cycleGo R env st (st.runs.map (fun e => e.1)) =
              .inr (b0, st0) := hc
          have hfalse := (cycleGo_inr R env (st.runs.map (fun e => e.1))
            st b0 st0 hc').1
          rw [hfalse] at hb
          exact absurd hb (by simp)

/-- In an interrupt-free environment, a `(False, …)` return of the monitor
loop leaves some tracked batch not completed. -/
theorem monitor_ret_false (R : Nat) :
    ∀ (envs : List CycleEnv) (st : MonitorState) (final : MonitorState),
      (∀ env ∈ envs, env.interrupt = false) →
      monitor_runs_parallel_with_retry R st envs = .ret false final →
      ∃ e ∈ final.runs, e.2.completed = false := by
  intro envs
  induction envs with
  | nil => intro st final _ h; exact MonitorResult.noConfusion h
  | cons env rest ih =>
    intro st final hni h
    rw [monitor_cons] at h
    have hi : env.interrupt = false := hni env (List.mem_cons_self _ _)
    rw [if_neg (by rw [hi]; exact Bool.false_ne_true)] at h
    by_cases hall : st.runs.all (fun e => e.2.completed) = true
    · rw [if_pos hall] at h
      injection h with hb hst
      exact absurd hb (by simp)
    · rw [if_neg hall] at h
      cases hc : runCycle R env st with
      | inl st' =>
        simp only [hc] at h
        exact ih st' final (fun e he => hni e (List.mem_cons_of_mem _ he)) h
      | inr r =>
        obtain ⟨b0, st0⟩ := r
        simp only [hc] at h
        injection h with hb hst
        have hc' : cycleGo R env st (st.runs.map (fun e => e.1)) =
            .inr (b0, st0) := hc
        obtain ⟨_, hinc⟩ := cycleGo_inr R env (st.runs.map (fun e => e.1))
          st b0 st0 hc'
        rw [← hst]
        exact hinc

/-! ## Registry decomposition lemmas (C10) -/

theorem keys_updateRun (st : MonitorState) (rid : Nat) (i : RunInfo) :
    (updateRun st rid i).runs.map (fun e => e.1) =
      st.runs.map (fun e => e.1) := by
  simp only [updateRun, List.map_map]
  apply List.map_congr_left
  intro a _
  by_cases hk : a.1 = rid
  · simp [Function.comp, hk]
  · simp [Function.comp, hk]

theorem map_update_id {l : List (Nat × RunInfo)} {rid : Nat} {i : RunInfo}
    (h : rid ∉ l.map (fun e => e.1)) :
    l.map (fun e => if e.1 = rid then (e.1, i) else e) = l := by
  induction l with
  | nil => rfl
  | cons a t ih =>
    simp only [List.map_cons, List.mem_cons, not_or] at h
    obtain ⟨h1, h2⟩ := h
    simp only [List.map_cons]
    rw [if_neg (fun hh => h1 hh.symm), ih h2]

theorem filter_ne_id {l : List (Nat × RunInfo)} {rid : Nat}
    (h : rid ∉ l.map (fun e => e.1)) :
    l.filter (fun e => !(e.1 == rid)) = l := by
  induction l with
  | nil => rfl
  | cons a t ih =>
    simp only [List.map_cons, List.mem_cons, not_or] at h
    obtain ⟨h1, h2⟩ := h
    have hb : (a.1 == rid) = false := by
      rw [beq_eq_false_iff_ne]
      exact fun hh => h1 hh.symm
    simp [List.filter_cons, hb, ih h2]

/-- With unique keys, a successful lookup splits the registry around its
entry. -/
theorem runs_decomp {l : List (Nat × RunInfo)} {rid : Nat} {info : RunInfo}
    (hnd : (l.map (fun e => e.1)).Nodup)
    (h : List.lookup rid l = some info) :
    ∃ l1 l2, l = l1 ++ (rid, info) :: l2 ∧
      rid ∉ l1.map (fun e => e.1) ∧ rid ∉ l2.map (fun e => e.1) := by
  induction l with
  | nil => cases h
  | cons a t ih =>
    obtain ⟨k, bb⟩ := a
    simp only [List.map_cons, List.nodup_cons] at hnd
    obtain ⟨hk_nin, hnd_t⟩ := hnd
    cases hk : (rid == k) with
    | true =>
      have hr : rid = k := eq_of_beq hk
      simp only [List.lookup, hk] at h
      cases h
      refine ⟨[], t, by rw [hr, List.nil_append], by simp, by rw [hr]; exact hk_nin⟩
    | false =>
      simp only [List.lookup, hk] at h
      obtain ⟨l1, l2, hdec, h1, h2⟩ := ih hnd_t h
      have hne : rid ≠ k := ne_of_beq_false hk
      refine ⟨(k, bb) :: l1, l2, ?_, ?_, h2⟩
      · rw [List.cons_append, hdec]
      · simp only [List.map_cons, List.mem_cons, not_or]
        exact ⟨hne, h1⟩

theorem updateRun_decomp {st : MonitorState} {rid : Nat} {info i : RunInfo}
    {l1 l2 : List (Nat × RunInfo)}
    (hdec : st.runs = l1 ++ (rid, info) :: l2)
    (h1 : rid ∉ l1.map (fun e => e.1)) (h2 : rid ∉ l2.map (fun e => e.1)) :
    (updateRun st rid i).runs = l1 ++ (rid, i) :: l2 := by
  simp only [updateRun, hdec, List.map_append, List.map_cons]
  rw [map_update_id h1, map_update_id h2]
  simp

theorem scheduleRetry_runs {st : MonitorState} {rid : Nat} {info ni : RunInfo}
    {l1 l2 : List (Nat × RunInfo)}
    (hdec : st.runs = l1 ++ (rid, info) :: l2)
    (h1 : rid ∉ l1.map (fun e => e.1)) (h2 : rid ∉ l2.map (fun e => e.1)) :
    (scheduleRetry st rid ni).runs = (l1 ++ l2) ++ [(st.next_id, ni)] := by
  simp only [scheduleRetry, hdec, List.filter_append, List.filter_cons]
  rw [filter_ne_id h1, filter_ne_id h2]
  simp [List.append_assoc]

theorem keys_lt_next {st : MonitorState} (hwf : WFRegistry st) :
    ∀ a ∈ st.runs.map (fun e => e.1), a < st.next_id := by
  intro a ha
  obtain ⟨e, he, rfl⟩ := List.mem_map.mp ha
  exact hwf.2 e he

theorem next_id_fresh {st : MonitorState} (hwf : WFRegistry st) :
    st.next_id ∉ st.runs.map (fun e => e.1) := by
  intro hin
  exact absurd (keys_lt_next hwf _ hin) (Nat.lt_irrefl _)

/-- A pure status update of a looked-up, not-completed entry preserves
registry well-formedness, the batch-index multiset, and every completed
entry. -/
theorem registry_updateRun {st : MonitorState} {rid : Nat} {info i : RunInfo}
    (hwf : WFRegistry st) (hl : List.lookup rid st.runs = some info)
    (hbi : i.batch_idx = info.batch_idx) (hinc : info.completed = false) :
    WFRegistry (updateRun st rid i) ∧
    (batchIdxs (updateRun st rid i)).Perm (batchIdxs st) ∧
    (∀ r j, (r, j) ∈ st.runs → j.completed = true →
      (r, j) ∈ (updateRun st rid i).runs) := by
  have hnd : (st.runs.map (fun e => e.1)).Nodup :=
    hwf.1.imp (fun h => Nat.ne_of_lt h)
  obtain ⟨l1, l2, hdec, h1, h2⟩ := runs_decomp hnd hl
  have hruns := @updateRun_decomp st rid info i l1 l2 hdec h1 h2
  refine ⟨⟨?_, ?_⟩, ?_, ?_⟩
  · rw [keys_updateRun]
    exact hwf.1
  · intro e he
    rw [hruns] at he
    rcases List.mem_append.mp he with hm1 | hm2
    · exact hwf.2 e (by rw [hdec]; exact List.mem_append_left _ hm1)
    · rcases List.mem_cons.mp hm2 with rfl | hm3
      · exact hwf.2 (rid, info)
          (by rw [hdec]
              exact List.mem_append_right _ (List.mem_cons_self _ _))
      · exact hwf.2 e
          (by rw [hdec]
              exact List.mem_append_right _ (List.mem_cons_of_mem _ hm3))
  · have heq : batchIdxs (updateRun st rid i) = batchIdxs st := by
      simp only [batchIdxs, hruns, hdec, List.map_append, List.map_cons, hbi]
    rw [heq]
  · intro r j hm hcomp
    rw [hruns]
    rw [hdec] at hm
    rcases List.mem_append.mp hm with hm1 | hm2
    · exact List.mem_append_left _ hm1
    · rcases List.mem_cons.mp hm2 with heq | hm3
      · exfalso
        injection heq with hr hj
        rw [hj, hinc] at hcomp
        exact Bool.false_ne_true hcomp
      · exact List.mem_append_right _ (List.mem_cons_of_mem _ hm3)

/-- Scheduling a retry for a looked-up, not-completed entry preserves
well-formedness and the batch-index multiset, keeps completed entries
untouched, and appends the fresh entry under a key unused so far. -/
theorem registry_scheduleRetry {st : MonitorState} {rid : Nat}
    {info : RunInfo} (s : String)
    (hwf : WFRegistry st) (hl : List.lookup rid st.runs = some info)
    (hinc : info.completed = false) :
    WFRegistry (scheduleRetry (updateRun st rid (polledInfo info s)) rid
      (retryInfo info)) ∧
    (batchIdxs (scheduleRetry (updateRun st rid (polledInfo info s)) rid
      (retryInfo info))).Perm (batchIdxs st) ∧
    (∀ r j, (r, j) ∈ st.runs → j.completed = true →
      (r, j) ∈ (scheduleRetry (updateRun st rid (polledInfo info s)) rid
        (retryInfo info)).runs) ∧
    ∃ l1 l2, st.runs = l1 ++ (rid, info) :: l2 ∧
      (scheduleRetry (updateRun st rid (polledInfo info s)) rid
        (retryInfo info)).runs =
        (l1 ++ l2) ++ [(st.next_id, retryInfo info)] := by
  have hnd : (st.runs.map (fun e => e.1)).Nodup :=
    hwf.1.imp (fun h => Nat.ne_of_lt h)
  obtain ⟨l1, l2, hdec, h1, h2⟩ := runs_decomp hnd hl
  have hst1 : (updateRun st rid (polledInfo info s)).runs =
      l1 ++ (rid, polledInfo info s) :: l2 :=
    @updateRun_decomp st rid info (polledInfo info s) l1 l2 hdec h1 h2
  have hruns : (scheduleRetry (updateRun st rid (polledInfo info s)) rid
      (retryInfo info)).runs = (l1 ++ l2) ++ [(st.next_id, retryInfo info)] :=
    @scheduleRetry_runs (updateRun st rid (polledInfo info s)) rid
      (polledInfo info s) (retryInfo info) l1 l2 hst1 h1 h2
  have hkeys := keys_lt_next hwf
  have hmem_l1 : ∀ e ∈ l1, e ∈ st.runs := by
    intro e he
    rw [hdec]
    exact List.mem_append_left _ he
  have hmem_l2 : ∀ e ∈ l2, e ∈ st.runs := by
    intro e he
    rw [hdec]
    exact List.mem_append_right _ (List.mem_cons_of_mem _ he)
  refine ⟨⟨?_, ?_⟩, ?_, ?_, l1, l2, hdec, hruns⟩
  · -- pairwise keys
    rw [hruns, List.map_append, List.map_append, List.map_cons, List.map_nil]
    have hpw : ((l1.map (fun e => e.1)) ++
        rid :: (l2.map (fun e => e.1))).Pairwise (· < ·) := by
      have := hwf.1
      rw [hdec, List.map_append, List.map_cons] at this
      exact this
    have hsub : List.Sublist
        ((l1.map (fun e => e.1)) ++ (l2.map (fun e => e.1)))
        ((l1.map (fun e => e.1)) ++ rid :: (l2.map (fun e => e.1))) :=
      List.Sublist.append_left (List.sublist_cons_self _ _) _
    rw [List.pairwise_append]
    refine ⟨hpw.sublist hsub, List.pairwise_singleton _ _, ?_⟩
    intro a ha b hb
    rw [List.mem_singleton] at hb
    subst hb
    rcases List.mem_append.mp ha with ha1 | ha2
    · refine hkeys a ?_
      rw [hdec, List.map_append]
      exact List.mem_append_left _ ha1
    · refine hkeys a ?_
      rw [hdec, List.map_append, List.map_cons]
      exact List.mem_append_right _ (List.mem_cons_of_mem _ ha2)
  · -- all entry keys below the new counter
    intro e he
    rw [hruns] at he
    rcases List.mem_append.mp he with hm1 | hm2
    · rcases List.mem_append.mp hm1 with hm1a | hm1b
      · exact Nat.lt_succ_of_lt (hwf.2 e (hmem_l1 e hm1a))
      · exact Nat.lt_succ_of_lt (hwf.2 e (hmem_l2 e hm1b))
    · rw [List.mem_singleton] at hm2
      subst hm2
      exact Nat.lt_succ_self _
  · -- batch-index multiset preserved
    rw [batchIdxs, batchIdxs, hruns, hdec, List.map_append, List.map_append,
      List.map_cons, List.map_nil, List.map_append, List.map_cons]
    exact (List.perm_append_singleton _ _).trans List.perm_middle.symm
  · -- completed entries untouched
    intro r j hm hcomp
    rw [hruns]
    rw [hdec] at hm
    rcases List.mem_append.mp hm with hm1 | hm2
    · exact List.mem_append_left _ (List.mem_append_left _ hm1)
    · rcases List.mem_cons.mp hm2 with heq | hm3
      · exfalso
        injection heq with hr hj
        rw [hj, hinc] at hcomp
        exact Bool.false_ne_true hcomp
      · exact List.mem_append_left _ (List.mem_append_right _ hm3)

/-- Per-poll registry preservation: well-formedness, the batch-index
multiset, and completed entries survive every `pollOne` outcome. -/
theorem pollOne_registry (R : Nat) (env : CycleEnv) (st : MonitorState)
    (rid : Nat) (hwf : WFRegistry st) :
    WFRegistry (outState (pollOne R env st rid)) ∧
    (batchIdxs (outState (pollOne R env st rid))).Perm (batchIdxs st) ∧
    (∀ r j, (r, j) ∈ st.runs → j.completed = true →
      (r, j) ∈ (outState (pollOne R env st rid)).runs) := by
  rcases pollOne_shape R env st rid with
    hs | ⟨info, s, hl, hc, hs | ⟨dl, hs⟩ | ⟨ha, hs⟩⟩
  · rw [hs]
    exact ⟨hwf, List.Perm.refl _, fun r j hm _ => hm⟩
  · rw [hs]
    exact registry_updateRun hwf hl rfl hc
  · rw [hs]
    exact @registry_updateRun st rid info (completeInfo info s) hwf hl rfl hc
  · rw [hs]
    obtain ⟨hwf2, hperm, hfroz, _⟩ := registry_scheduleRetry s hwf hl hc
    exact ⟨hwf2, hperm, hfroz⟩

/-- Cycle-level registry preservation. -/
theorem registry_cycleGo (R : Nat) (env : CycleEnv) :
    ∀ (l : List Nat) (st : MonitorState), WFRegistry st →
      WFRegistry (outState (cycleGo R env st l)) ∧
      (batchIdxs (outState (cycleGo R env st l))).Perm (batchIdxs st) ∧
      (∀ r j, (r, j) ∈ st.runs → j.completed = true →
        (r, j) ∈ (outState (cycleGo R env st l)).runs) := by
  intro l
  induction l with
  | nil =>
    intro st hwf
    exact ⟨hwf, List.Perm.refl _, fun r j hm _ => hm⟩
  | cons rid rest ih =>
    intro st hwf
    cases hp : pollOne R env st rid with
    | inl st1 =>
      have h1 := pollOne_registry R env st rid hwf
      rw [hp] at h1
      have heq : cycleGo R env st (rid :: rest) = cycleGo R env st1 rest := by
        simp only [cycleGo, hp]
      rw [heq]
      obtain ⟨hwf1, hperm1, hfroz1⟩ := h1
      obtain ⟨hwf2, hperm2, hfroz2⟩ := ih st1 hwf1
      exact ⟨hwf2, hperm2.trans hperm1,
        fun r j hm hcomp => hfroz2 r j (hfroz1 r j hm hcomp) hcomp⟩
    | inr r =>
      obtain ⟨b, st1⟩ := r
      have h1 := pollOne_registry R env st rid hwf
      rw [hp] at h1
      have heq : cycleGo R env st (rid :: rest) = .inr (b, st1) := by
        simp only [cycleGo, hp]
      rw [heq]
      exact h1

/-! ## All-fail run computation (C4) -/

theorem monitor_allfail (R : Nat) :
    ∀ d k, k + d = R →
      monitor_runs_parallel_with_retry R (failState k)
        (List.replicate (d + 1) allFailEnv) = .ret false (abandonState R) := by
  intro d
  induction d with
  | zero =>
    intro k hk
    have hkR : k = R := by omega
    rw [hkR]
    have hpoll : pollOne R allFailEnv (failState R) R =
        .inr (false, abandonState R) := by
      simp [pollOne, failState, List.lookup, allFailEnv, isTerminal,
        updateRun, polledInfo, abandonState]
    have hcyc : runCycle R allFailEnv (failState R) =
        .inr (false, abandonState R) := by
      show cycleGo R allFailEnv (failState R)
        ((failState R).runs.map (fun e => e.1)) = _
      have hsnap : (failState R).runs.map (fun e => e.1) = [R] := by
        simp [failState]
      rw [hsnap]
      simp only [cycleGo, hpoll]
    rw [show List.replicate (0 + 1) allFailEnv = [allFailEnv] from rfl,
      monitor_cons]
    rw [if_neg (by simp [allFailEnv])]
    rw [if_neg (by simp [failState])]
    simp only [hcyc]
  | succ d ih =>
    intro k hk
    have hkR : k < R := by omega
    have hlt : k + 1 < R + 1 := by omega
    have hpoll : pollOne R allFailEnv (failState k) k =
        .inl (failState (k + 1)) := by
      simp [pollOne, failState, List.lookup, allFailEnv, isTerminal, hlt,
        scheduleRetry, updateRun, polledInfo, retryInfo]
    have hcyc : runCycle R allFailEnv (failState k) =
        .inl (failState (k + 1)) := by
      show cycleGo R allFailEnv (failState k)
        ((failState k).runs.map (fun e => e.1)) = _
      have hsnap : (failState k).runs.map (fun e => e.1) = [k] := by
        simp [failState]
      rw [hsnap]
      simp only [cycleGo, hpoll]
    rw [List.replicate_succ, monitor_cons]
    rw [if_neg (by simp [allFailEnv])]
    rw [if_neg (by simp [failState])]
    simp only [hcyc]
    exact ih (k + 1) (by omega)

/-- C4: with a single batch whose every run finishes with zero traces and
whose every retry scheduling call succeeds, the monitor performs exactly
`R` retry schedulings (`sched_count`) before reporting overall failure with
the entry at attempt `R + 1` — together with the initial scheduling done by
the caller, the batch is scheduled exactly `R + 1` times.  The attempt
counter of every tracked entry stays in `[1, R + 1]` across any monitored
run. -/
theorem c4_retry_budget (R : Nat) :
    monitor_runs_parallel_with_retry R (initMonitorState 1)
        (List.replicate (R + 1) allFailEnv) = .ret false (abandonState R) ∧
    (abandonState R).sched_count = R ∧
    (abandonState R).runs = [(R, ⟨0, R + 1, "COMPLETED", some "COMPLETED",
      false⟩)] ∧
    (∀ (envs : List CycleEnv) (st : MonitorState) (b : Bool)
      (final : MonitorState), AttemptsOK R st →
      monitor_runs_parallel_with_retry R st envs = .ret b final →
      AttemptsOK R final) := by
  refine ⟨?_, rfl, rfl,
    fun envs st b final h hm => attemptsOK_monitor R envs st b final h hm⟩
  have hinit : initMonitorState 1 = failState 0 := rfl
  rw [hinit]
  exact monitor_allfail R R 0 (by omega)

/-- Witness for C4 at `maxRetries = 3`: 1 initial + 3 retries = 4
schedulings, final attempt 4 within the bound `3 + 1`. -/
theorem c4_retry_budget_witness :
    monitor_runs_parallel_with_retry 3 (initMonitorState 1)
        (List.replicate 4 allFailEnv) = .ret false (abandonState 3) ∧
    1 + (abandonState 3).sched_count = 3 + 1 ∧
    (1 ≤ 4 ∧ 4 ≤ 3 + 1) := by
  have h := c4_retry_budget 3
  have hA : AttemptsOK 3 (initMonitorState 1) := by
    intro e he
    simp [initMonitorState, initRunInfo] at he
    subst he
    exact ⟨by decide, by decide⟩
  have hfin := h.2.2.2 (List.replicate 4 allFailEnv) (initMonitorState 1)
    false (abandonState 3) hA h.1
  have hmem : ((3 : Nat),
      (⟨0, 4, "COMPLETED", some "COMPLETED", false⟩ : RunInfo)) ∈
      (abandonState 3).runs := by decide
  exact ⟨h.1, by rw [h.2.1], hfin _ hmem⟩

/-! ## C6: monitor termination conditions -/

/-- C6: in an interrupt-free run the monitor returns success exactly when
every tracked batch is completed (terminal status with at least one
downloaded trace); any single batch that exhausts its retry budget with no
traces, or any failed retry scheduling call, makes `pollOne` return the
overall-failure value immediately; and every monitor return preserves the
traces already collected at entry as a prefix of the returned trace list. -/
theorem c6_monitor_termination (R : Nat) :
    (∀ (envs : List CycleEnv) (st : MonitorState) (b : Bool)
      (final : MonitorState), (∀ env ∈ envs, env.interrupt = false) →
      monitor_runs_parallel_with_retry R st envs = .ret b final →
      ((b = true ↔ final.runs.all (fun e => e.2.completed) = true) ∧
        st.all_traces <+: final.all_traces)) ∧
    (∀ (env : CycleEnv) (st : MonitorState) (rid : Nat) (info : RunInfo)
      (s : String), List.lookup rid st.runs = some info →
      info.completed = false → env.poll rid = .ok s [] →
      isTerminal s = true →
      (¬ info.attempt < R + 1 ∨ env.schedOk info.batch_idx = false) →
      pollOne R env st rid =
        .inr (false, updateRun st rid (polledInfo info s))) := by
  constructor
  · intro envs st b final hni hm
    refine ⟨⟨?_, ?_⟩, monitor_ret_traces envs st hm⟩
    · intro hb
      subst hb
      exact monitor_ret_true R envs st final hm
    · intro hall
      cases b with
      | true => rfl
      | false =>
        exfalso
        obtain ⟨e, he, hce⟩ := monitor_ret_false R envs st final hni hm
        rw [List.all_eq_true] at hall
        have h4 : e.2.completed = true := hall e he
        rw [hce] at h4
        exact Bool.false_ne_true h4
  · intro env st rid info s hl hc hp ht hdis
    unfold pollOne
    simp only [hl]
    rw [if_neg (by simp [hc])]
    simp only [hp]
    rw [if_pos ht,
      if_pos (show ([] : List String).isEmpty = true from rfl)]
    by_cases ha : info.attempt < R + 1
    · rw [if_pos ha]
      rcases hdis with hna | hsch
      · exact absurd ha hna
      · rw [if_neg (by rw [hsch]; exact Bool.false_ne_true)]
    · rw [if_neg ha]

/-- Witness for C6: a two-cycle run in which the single batch downloads one
trace and the monitor returns success; and an immediate-failure poll at an
exhausted retry budget. -/
theorem c6_monitor_termination_witness :
    ((true = true) ↔
      (MonitorState.mk
        [(0, ⟨0, 1, "COMPLETED", some "COMPLETED", true⟩)]
        ["batch0_iter1.perfetto-trace"] 1 0).runs.all
        (fun e => e.2.completed) = true) ∧
    (initMonitorState 1).all_traces <+: ["batch0_iter1.perfetto-trace"] ∧
    pollOne 0 allFailEnv (initMonitorState 1) 0 =
      .inr (false, updateRun (initMonitorState 1) 0
        (polledInfo ⟨0, 1, "PENDING", none, false⟩ "COMPLETED")) := by
  have h := c6_monitor_termination 0
  have hni : ∀ env ∈ [succEnv, succEnv], env.interrupt = false := by
    intro env he
    rcases List.mem_cons.mp he with rfl | he2
    · rfl
    · rcases List.mem_cons.mp he2 with rfl | he3
      · rfl
      · exact absurd he3 (List.not_mem_nil env)
  have hm : monitor_runs_parallel_with_retry 0 (initMonitorState 1)
      [succEnv, succEnv] = .ret true
      (MonitorState.mk [(0, ⟨0, 1, "COMPLETED", some "COMPLETED", true⟩)]
        ["batch0_iter1.perfetto-trace"] 1 0) := by decide
  obtain ⟨hiff, hpre⟩ :=
    h.1 [succEnv, succEnv] (initMonitorState 1) true _ hni hm
  refine ⟨hiff, hpre, ?_⟩
  exact h.2 allFailEnv (initMonitorState 1) 0 ⟨0, 1, "PENDING", none, false⟩
    "COMPLETED" (by decide) (by decide) rfl (by decide)
    (Or.inl (by decide))

/-! ## C9: cancellation -/

/-- C9, amended: a `KeyboardInterrupt` observed at the top of a poll cycle
makes the monitor stop issuing status queries and retries at once and
return the traces collected so far without raising — but the flag it
returns is the same `False` as an abandonment failure, so the caller
(`pipeline.py`) cannot distinguish cancellation from failure; only the
console output differs. -/
theorem c9_cancellation (R : Nat) (st : MonitorState) (env : CycleEnv)
    (rest : List CycleEnv) (h : env.interrupt = true) :
    monitor_runs_parallel_with_retry R st (env :: rest) = .ret false st := by
  rw [monitor_cons, if_pos h]

/-- Witness for C9 on a one-batch monitor interrupted in its first cycle. -/
theorem c9_cancellation_witness :
    monitor_runs_parallel_with_retry 3 (initMonitorState 1) [interruptEnv] =
      .ret false (initMonitorState 1) :=
  c9_cancellation 3 (initMonitorState 1) interruptEnv [] rfl

/-- C9 counterexample: the observable value returned after an interrupt is
identical to the one returned after an abandonment failure — `(False, [])`
in both runs — refuting the claim that cancellation is reported as
"incomplete" distinguishably from failure. -/
theorem c9_indistinguishable_counterexample :
    monitorObs (monitor_runs_parallel_with_retry 3 (initMonitorState 1)
        [interruptEnv]) =
      monitorObs (monitor_runs_parallel_with_retry 0 (initMonitorState 1)
        (List.replicate 1 allFailEnv)) ∧
    monitorObs (monitor_runs_parallel_with_retry 3 (initMonitorState 1)
        [interruptEnv]) = some (false, []) := by
  exact ⟨by decide, by decide⟩

/-! ## C10: run-registry invariant -/

/-- C10: (i) `pollOne` is the identity on a completed entry — a completed
batch is never polled, rescheduled or modified again; (ii) a polling cycle
(which iterates the key snapshot `st.runs.map (·.1)` taken at its start)
preserves registry well-formedness, preserves the multiset of tracked batch
indices — so every batch index stays tracked by exactly one entry — and
leaves every completed entry untouched; (iii) a retry atomically replaces
the old entry by one with the same batch index and `attempt + 1` under the
fresh key `st.next_id`, which is not among the registry keys (hence not in
the snapshot), so a retry run receives its first status query no earlier
than the next cycle. -/
theorem c10_run_registry (R : Nat) :
    (∀ (env : CycleEnv) (st : MonitorState) (rid : Nat) (info : RunInfo),
      List.lookup rid st.runs = some info → info.completed = true →
      pollOne R env st rid = .inl st) ∧
    (∀ (env : CycleEnv) (st st' : MonitorState), WFRegistry st →
      runCycle R env st = .inl st' →
      WFRegistry st' ∧ (batchIdxs st').Perm (batchIdxs st) ∧
      ∀ r j, (r, j) ∈ st.runs → j.completed = true → (r, j) ∈ st'.runs) ∧
    (∀ (env : CycleEnv) (st : MonitorState) (rid : Nat) (info : RunInfo)
      (s : String), WFRegistry st →
      List.lookup rid st.runs = some info → info.completed = false →
      env.poll rid = .ok s [] → isTerminal s = true →
      info.attempt < R + 1 → env.schedOk info.batch_idx = true →
      st.next_id ∉ st.runs.map (fun e => e.1) ∧
      pollOne R env st rid = .inl
        (scheduleRetry (updateRun st rid (polledInfo info s)) rid
          (retryInfo info)) ∧
      (retryInfo info).batch_idx = info.batch_idx ∧
      (retryInfo info).attempt = info.attempt + 1 ∧
      ∃ l1 l2, st.runs = l1 ++ (rid, info) :: l2 ∧
        (scheduleRetry (updateRun st rid (polledInfo info s)) rid
          (retryInfo info)).runs =
          (l1 ++ l2) ++ [(st.next_id, retryInfo info)]) := by
  refine ⟨?_, ?_, ?_⟩
  · intro env st rid info hl hc
    unfold pollOne
    simp only [hl]
    rw [if_pos hc]
  · intro env st st' hwf hcy
    have h := registry_cycleGo R env (st.runs.map (fun e => e.1)) st hwf
    have hcy' : cycleGo R env st (st.runs.map (fun e => e.1)) = .inl st' := hcy
    rw [hcy'] at h
    exact h
  · intro env st rid info s hwf hl hc hp ht hlt hsch
    refine ⟨next_id_fresh hwf, ?_, rfl, rfl, ?_⟩
    · unfold pollOne
      simp only [hl]
      rw [if_neg (by simp [hc])]
      simp only [hp]
      rw [if_pos ht,
        if_pos (show ([] : List String).isEmpty = true from rfl),
        if_pos hlt, if_pos hsch]
    · obtain ⟨_, _, _, l1, l2, hdec, hruns⟩ :=
        registry_scheduleRetry s hwf hl hc
      exact ⟨l1, l2, hdec, hruns⟩

/-- Witness for C10: the completed-entry skip and the retry transition on
concrete one-batch registries. -/
theorem c10_run_registry_witness :
    pollOne 3 succEnv
      (MonitorState.mk [(0, ⟨0, 1, "COMPLETED", some "COMPLETED", true⟩)]
        ["t"] 1 0) 0 =
      .inl (MonitorState.mk
        [(0, ⟨0, 1, "COMPLETED", some "COMPLETED", true⟩)] ["t"] 1 0) ∧
    (1 ∉ (initMonitorState 1).runs.map (fun e => e.1) ∧
      pollOne 3 allFailEnv (initMonitorState 1) 0 = .inl
        (scheduleRetry (updateRun (initMonitorState 1) 0
          (polledInfo ⟨0, 1, "PENDING", none, false⟩ "COMPLETED")) 0
          (retryInfo ⟨0, 1, "PENDING", none, false⟩))) := by
  have hwf0 : WFRegistry (initMonitorState 1) := by
    constructor
    · have hk : (initMonitorState 1).runs.map (fun e => e.1) = [0] := rfl
      rw [hk]
      exact List.pairwise_singleton _ _
    · intro e he
      simp [initMonitorState, initRunInfo] at he
      subst he
      decide
  constructor
  · exact (c10_run_registry 3).1 succEnv _ 0
      ⟨0, 1, "COMPLETED", some "COMPLETED", true⟩ (by decide) rfl
  · have h := (c10_run_registry 3).2.2 allFailEnv (initMonitorState 1) 0
      ⟨0, 1, "PENDING", none, false⟩ "COMPLETED" hwf0 (by decide) rfl rfl
      (by decide) (by decide) rfl
    exact ⟨h.1, h.2.1⟩

end PerfTest
